import Mathlib

/-!
Shallow embedding of the logdot-go client library (package `logdot`):
the Logger facade (logger.go), the BoundMetrics batching state machine,
the retrying HTTP transport, and the message-truncation helper.
Go maps (`map[string]interface{}`) are modelled as association lists
whose observable behaviour is the `mapLookup` function; Go strings are
modelled as their byte sequences (`List Nat`, each entry < 256).
-/

namespace LogDot

/-- Values stored in Go `map[string]interface{}` tag maps.  Only the cases
the library actually stores are modelled; the library never inspects them. -/
inductive Val where
  | int : Int → Val
  | str : String → Val
  | float : ℚ → Val
  deriving DecidableEq, Repr

/-- Rendering used by `fmt.Sprintf("%v", value)` in formatTags. -/
def Val.render : Val → String
  | .int i => toString i
  | .str s => s
  | .float q => toString q

/-- A Go `map[string]interface{}`, as an association list (no duplicate keys
when well-formed; iteration-order-independent behaviour is captured through
`mapLookup`). -/
abbrev TagMap := List (String × Val)

/-- Lookup of a key, first binding wins (well-formed maps have no duplicates). -/
def mapLookup (m : TagMap) (k : String) : Option Val :=
  match m with
  | [] => none
  | (k', v) :: rest => if k' = k then some v else mapLookup rest k

/-- Go `m[k] = v`: replace the binding in place if present, else append. -/
def mapInsert (m : TagMap) (k : String) (v : Val) : TagMap :=
  match m with
  | [] => [(k, v)]
  | (k', v') :: rest =>
      if k' = k then (k', v) :: rest else (k', v') :: mapInsert rest k v

/-- Go `for k, v := range src { dst[k] = v }`. -/
def mapCopyInto (dst src : TagMap) : TagMap :=
  src.foldl (fun d kv => mapInsert d kv.1 kv.2) dst

/-- Keys of a tag map. -/
def mapKeys (m : TagMap) : List String := m.map Prod.fst

/-- Go strings are byte sequences. -/
abbrev GoStr := List Nat

/-- Continuation-byte ranges that must follow a leading byte, per Go's
`utf8` acceptance table (RFC 3629: shortest encodings only, surrogates
excluded, max U+10FFFF); `none` marks an invalid leading byte. -/
def utf8Ranges (b : Nat) : Option (List (Nat × Nat)) :=
  if b < 0x80 then some []
  else if 0xC2 ≤ b ∧ b ≤ 0xDF then some [(0x80, 0xBF)]
  else if b = 0xE0 then some [(0xA0, 0xBF), (0x80, 0xBF)]
  else if (0xE1 ≤ b ∧ b ≤ 0xEC) ∨ b = 0xEE ∨ b = 0xEF then some [(0x80, 0xBF), (0x80, 0xBF)]
  else if b = 0xED then some [(0x80, 0x9F), (0x80, 0xBF)]
  else if b = 0xF0 then some [(0x90, 0xBF), (0x80, 0xBF), (0x80, 0xBF)]
  else if 0xF1 ≤ b ∧ b ≤ 0xF3 then some [(0x80, 0xBF), (0x80, 0xBF), (0x80, 0xBF)]
  else if b = 0xF4 then some [(0x80, 0x8F), (0x80, 0xBF), (0x80, 0xBF)]
  else none

/-- Consume bytes matching the given ranges; `none` when a byte is out of
range or the input ends early. -/
def consumeRanges : List (Nat × Nat) → GoStr → Option GoStr
  | [], rest => some rest
  | (lo, hi) :: more, c :: rest =>
      if lo ≤ c ∧ c ≤ hi then consumeRanges more rest else none
  | _ :: _, [] => none

/-- UTF-8 validity of a byte sequence, following Go's `utf8.ValidString`:
each leading byte must be acceptable and be followed by its required
continuation bytes. -/
def validUtf8 : GoStr → Bool
  | [] => true
  | b :: rest =>
    match utf8Ranges b with
    | none => false
    | some rs =>
      match _h : consumeRanges rs rest with
      | some rest' => validUtf8 rest'
      | none => false
  termination_by l => l.length
  decreasing_by
    have hle : ∀ (rs : List (Nat × Nat)) (l l' : GoStr),
        consumeRanges rs l = some l' → l'.length ≤ l.length := by
      intro rs
      induction rs with
      | nil =>
          intro l l' hc
          simp only [consumeRanges, Option.some.injEq] at hc
          subst hc
          exact Nat.le_refl _
      | cons p more ih =>
          intro l l' hc
          cases l with
          | nil => simp [consumeRanges] at hc
          | cons c t =>
              obtain ⟨lo, hi⟩ := p
              simp only [consumeRanges] at hc
              split_ifs at hc
              exact le_trans (ih t l' hc) (by simp)
    have := hle rs rest rest' _h
    simp only [List.length_cons]
    omega

/-- `maxMessageBytes` from the source. -/
def maxMessageBytes : Nat := 16000

/-- The bytes of the `"... [truncated]"` suffix marker (ASCII). -/
def markerBytes : GoStr := [46, 46, 46, 32, 91, 116, 114, 117, 110, 99, 97, 116, 101, 100, 93]

/-- The `for len(truncated) > 0 && !utf8.ValidString(truncated)` loop of
`truncateMessage`: drop trailing bytes until the prefix is valid (or empty). -/
def trimToValid (l : GoStr) : GoStr :=
  if 0 < l.length ∧ ¬ validUtf8 l then trimToValid l.dropLast else l
  termination_by l.length
  decreasing_by
    rename_i h
    simp [List.length_dropLast]
    omega

/-- `truncateMessage` from the source: cap at `maxMessageBytes` bytes, walk
back to a valid UTF-8 boundary, append the marker. -/
def truncateMessage (msg : GoStr) : GoStr :=
  if msg.length ≤ maxMessageBytes then msg
  else trimToValid (msg.take maxMessageBytes) ++ markerBytes

/-- Log severity levels. -/
inductive LogLevel where
  | debug | info | warn | error
  deriving DecidableEq, Repr

/-- `LogEntry` from types.go.  `hostname` and `tags` carry `omitempty`:
`none` models the Go zero value (empty string / nil map), which is absent
from the wire payload. -/
structure LogEntry where
  message : GoStr
  level : LogLevel
  hostname : Option String := none
  tags : Option TagMap := none
  deriving DecidableEq, Repr

/-- `BatchLogsPayload` from types.go (hostname once at envelope level). -/
structure BatchLogsPayload where
  hostname : String
  logs : List LogEntry
  deriving DecidableEq, Repr

/-- `MetricEntry` from types.go; `tags` is `omitempty` (`none` = nil slice). -/
structure MetricEntry where
  entityID : Option String := none
  name : String
  value : ℚ
  unit : String
  tags : Option (List String) := none
  deriving DecidableEq, Repr

/-- `BatchMetricEntry` from types.go; `name` is `omitempty` and is only
assigned in multi-metric batch mode. -/
structure BatchMetricEntry where
  name : Option String := none
  value : ℚ
  unit : String
  tags : Option (List String) := none
  deriving DecidableEq, Repr

/-- `BatchMetricsPayload` from types.go; envelope `name` is `omitempty` and
only assigned in single-metric batch mode. -/
structure BatchMetricsPayload where
  entityID : String
  name : Option String := none
  metrics : List BatchMetricEntry
  deriving DecidableEq, Repr

/-- Whether the JSON `tags` field is present on the wire: `omitempty` omits
a nil or empty map. -/
def tagsFieldPresent (t : Option TagMap) : Bool :=
  match t with
  | none => false
  | some m => !m.isEmpty

/-- Errors returned by library operations (shape of the `fmt.Errorf` calls). -/
inductive GoErr where
  | transport (msg : String)
  | httpStatus (code : Nat)
  | modeErr (msg : String)
  deriving DecidableEq, Repr

/-- Outcome of one network call as seen by callers of `HTTPClient.Post`:
either a transport-level error (after retries were exhausted) or an HTTP
status code of a completed response. -/
inductive NetResult where
  | err (msg : String)
  | ok (status : Nat)
  deriving DecidableEq, Repr

/-- The `Logger` struct (logger.go), minus the fields with no observable
behaviour here (`http`, `debug`, the mutex). -/
structure Logger where
  hostname : String
  logCtx : TagMap
  batchMode : Bool
  batchQueue : List LogEntry
  deriving DecidableEq, Repr

/-- `NewLogger`: empty context, batch mode off, empty queue. -/
def newLogger (hostname : String) : Logger :=
  { hostname := hostname, logCtx := [], batchMode := false, batchQueue := [] }

/-- `Logger.WithContext`: copy the parent context into a fresh map, overlay
the supplied overrides, and return a new Logger (batch state not inherited). -/
def Logger.withContext (l : Logger) (ctx : TagMap) : Logger :=
  { hostname := l.hostname
    logCtx := mapCopyInto (mapCopyInto [] l.logCtx) ctx
    batchMode := false
    batchQueue := [] }

/-- `Logger.GetContext` (returns a copy; in the pure model, the map itself). -/
def Logger.getContext (l : Logger) : TagMap := l.logCtx

/-- `Logger.mergeTags`: nil when both context and tags are empty, else a
fresh map holding the context overlaid with the tags. -/
def Logger.mergeTags (l : Logger) (tags : TagMap) : Option TagMap :=
  if l.logCtx.isEmpty && tags.isEmpty then none
  else some (mapCopyInto (mapCopyInto [] l.logCtx) tags)

/-- The `LogEntry` built at the top of `Logger.Log`. -/
def Logger.buildEntry (l : Logger) (level : LogLevel) (message : GoStr)
    (tags : TagMap) : LogEntry :=
  { message := message, level := level, tags := l.mergeTags tags }

/-- `Logger.BeginBatch`. -/
def Logger.beginBatch (l : Logger) : Logger :=
  { l with batchMode := true, batchQueue := [] }

/-- `Logger.EndBatch`. -/
def Logger.endBatch (l : Logger) : Logger :=
  { l with batchMode := false, batchQueue := [] }

/-- `Logger.ClearBatch`. -/
def Logger.clearBatch (l : Logger) : Logger :=
  { l with batchQueue := [] }

/-- `Logger.BatchSize`. -/
def Logger.batchSize (l : Logger) : Nat := l.batchQueue.length

/-- The payload POSTed by `Logger.sendLog`: the entry with the logger's
hostname attached.  The message bytes are transmitted unmodified. -/
def Logger.sendLogPayload (l : Logger) (entry : LogEntry) : LogEntry :=
  { entry with hostname := some l.hostname }

/-- `Logger.SendBatch`, with the network call abstracted as an oracle from
the POSTed payload to its result.  Returns the new logger state, the
operation outcome, and the list of network requests issued (0 or 1). -/
def Logger.sendBatchGo (l : Logger) (net : BatchLogsPayload → NetResult) :
    Logger × Except GoErr Unit × List BatchLogsPayload :=
  if !l.batchMode || l.batchQueue.isEmpty then (l, .ok (), [])
  else
    let payload : BatchLogsPayload := { hostname := l.hostname, logs := l.batchQueue }
    match net payload with
    | .err e => (l, .error (.transport e), [payload])
    | .ok status =>
        if status ≠ 200 ∧ status ≠ 201 then
          (l, .error (.httpStatus status), [payload])
        else
          (l.clearBatch, .ok (), [payload])

/-- `formatTags` from metrics.go: nil for a nil/empty map, else the list of
`"key:value"` strings. -/
def formatTags (tags : TagMap) : Option (List String) :=
  if tags.isEmpty then none
  else some (tags.map fun kv => kv.1 ++ ":" ++ kv.2.render)

/-- The `BoundMetrics` struct (metrics.go), minus `http`, `debug` and the
mutex. -/
structure BoundMetrics where
  entityID : String
  batchMode : Bool
  multiBatchMode : Bool
  batchMetricName : String
  batchUnit : String
  batchQueue : List MetricEntry
  lastError : String
  lastHTTPCode : Int
  deriving DecidableEq, Repr

/-- `Metrics.ForEntity`: a fresh bound client (lastHTTPCode sentinel -1). -/
def forEntity (entityID : String) : BoundMetrics :=
  { entityID := entityID, batchMode := false, multiBatchMode := false
    batchMetricName := "", batchUnit := "", batchQueue := []
    lastError := "", lastHTTPCode := -1 }

/-- `BoundMetrics.BatchSize`. -/
def BoundMetrics.batchSize (b : BoundMetrics) : Nat := b.batchQueue.length

/-- `BoundMetrics.BeginBatch`. -/
def BoundMetrics.beginBatch (b : BoundMetrics) (metricName unit : String) : BoundMetrics :=
  { b with batchMode := true, multiBatchMode := false
           batchMetricName := metricName, batchUnit := unit, batchQueue := [] }

/-- `BoundMetrics.BeginMultiBatch`. -/
def BoundMetrics.beginMultiBatch (b : BoundMetrics) : BoundMetrics :=
  { b with batchMode := true, multiBatchMode := true, batchQueue := [] }

/-- `BoundMetrics.EndBatch`. -/
def BoundMetrics.endBatch (b : BoundMetrics) : BoundMetrics :=
  { b with batchMode := false, multiBatchMode := false, batchQueue := [] }

/-- `BoundMetrics.ClearBatch`. -/
def BoundMetrics.clearBatch (b : BoundMetrics) : BoundMetrics :=
  { b with batchQueue := [] }

/-- `BoundMetrics.Add`: legal only in single-metric batch mode. -/
def BoundMetrics.add (b : BoundMetrics) (value : ℚ) (tags : TagMap) :
    BoundMetrics × Except GoErr Unit :=
  if !b.batchMode || b.multiBatchMode then
    ({ b with lastError := "not in single-metric batch mode" },
     .error (.modeErr "not in single-metric batch mode"))
  else
    ({ b with batchQueue := b.batchQueue ++
        [{ name := b.batchMetricName, value := value, unit := b.batchUnit
           tags := formatTags tags }] },
     .ok ())

/-- `BoundMetrics.AddMetric`: legal only in multi-metric batch mode. -/
def BoundMetrics.addMetric (b : BoundMetrics) (name : String) (value : ℚ)
    (unit : String) (tags : TagMap) : BoundMetrics × Except GoErr Unit :=
  if !b.multiBatchMode then
    ({ b with lastError := "not in multi-metric batch mode" },
     .error (.modeErr "not in multi-metric batch mode"))
  else
    ({ b with batchQueue := b.batchQueue ++
        [{ name := name, value := value, unit := unit, tags := formatTags tags }] },
     .ok ())

/-- `BoundMetrics.Send`: legal only when not in batch mode; otherwise POSTs
one metric.  The oracle maps the POSTed entry to a result; the returned list
records the network requests issued (empty on a mode error). -/
def BoundMetrics.send (b : BoundMetrics) (name : String) (value : ℚ)
    (unit : String) (tags : TagMap) (net : MetricEntry → NetResult) :
    BoundMetrics × Except GoErr Unit × List MetricEntry :=
  if b.batchMode then
    ({ b with lastError := "cannot use Send() in batch mode" },
     .error (.modeErr "cannot use Send() in batch mode"), [])
  else
    let entry : MetricEntry :=
      { entityID := some b.entityID, name := name, value := value
        unit := unit, tags := formatTags tags }
    match net entry with
    | .err e => ({ b with lastError := e }, .error (.transport e), [entry])
    | .ok status =>
        let b' := { b with lastHTTPCode := (status : Int) }
        if status ≠ 200 ∧ status ≠ 201 then
          ({ b' with lastError := "HTTP " ++ toString status },
           .error (.httpStatus status), [entry])
        else
          ({ b' with lastError := "" }, .ok (), [entry])

/-- The batch payload assembled by `BoundMetrics.SendBatch`: per-entry name
only in multi-metric mode, envelope name only in single-metric mode. -/
def BoundMetrics.batchPayload (b : BoundMetrics) : BatchMetricsPayload :=
  { entityID := b.entityID
    name := if b.multiBatchMode then none else some b.batchMetricName
    metrics := b.batchQueue.map fun entry =>
      { name := if b.multiBatchMode then some entry.name else none
        value := entry.value, unit := entry.unit, tags := entry.tags } }

/-- `BoundMetrics.SendBatch`: no-op unless in batch mode with a non-empty
queue; clears the queue only on a 200/201 response, preserves the mode. -/
def BoundMetrics.sendBatchGo (b : BoundMetrics)
    (net : BatchMetricsPayload → NetResult) :
    BoundMetrics × Except GoErr Unit × List BatchMetricsPayload :=
  if !b.batchMode || b.batchQueue.isEmpty then (b, .ok (), [])
  else
    let payload := b.batchPayload
    match net payload with
    | .err e => ({ b with lastError := e }, .error (.transport e), [payload])
    | .ok status =>
        let b' := { b with lastHTTPCode := (status : Int) }
        if status ≠ 200 ∧ status ≠ 201 then
          ({ b' with lastError := "HTTP " ++ toString status },
           .error (.httpStatus status), [payload])
        else
          ({ b'.clearBatch with lastError := "" }, .ok (), [payload])

/-- One operation on a `BoundMetrics` client; network-issuing operations
carry the oracle result for the request they would make. -/
inductive MOp where
  | beginBatch (name unit : String)
  | beginMultiBatch
  | add (value : ℚ) (tags : TagMap)
  | addMetric (name : String) (value : ℚ) (unit : String) (tags : TagMap)
  | endBatch
  | clearBatch
  | send (name : String) (value : ℚ) (unit : String) (tags : TagMap) (net : NetResult)
  | sendBatch (net : NetResult)

/-- State transition of one operation (discarding outputs). -/
def mstep (b : BoundMetrics) : MOp → BoundMetrics
  | .beginBatch n u => b.beginBatch n u
  | .beginMultiBatch => b.beginMultiBatch
  | .add v t => (b.add v t).1
  | .addMetric n v u t => (b.addMetric n v u t).1
  | .endBatch => b.endBatch
  | .clearBatch => b.clearBatch
  | .send n v u t r => (b.send n v u t (fun _ => r)).1
  | .sendBatch r => (b.sendBatchGo (fun _ => r)).1

/-- Run a sequence of operations from a state. -/
def mrun (b : BoundMetrics) : List MOp → BoundMetrics
  | [] => b
  | op :: rest => mrun (mstep b op) rest

/-- A state is reachable when some operation sequence from a freshly
constructed client produces it. -/
def Reachable (s : BoundMetrics) : Prop :=
  ∃ entityID ops, mrun (forEntity entityID) ops = s

/-- `RetryConfig` from http.go, with durations as exact rationals
(nanosecond counts). -/
structure RetryConfig where
  maxAttempts : Int
  baseDelay : ℚ
  maxDelay : ℚ

/-- Result of one `doRequest` call: a completed HTTP response (any status)
or a transport-level failure (connection error, timeout, serialization
failure). -/
inductive AttemptResult where
  | ok (status : Nat) (body : GoStr)
  | err (msg : String)
  deriving DecidableEq, Repr

/-- Whether an attempt result is a transport-level failure. -/
def AttemptResult.isErr : AttemptResult → Bool
  | .ok _ _ => false
  | .err _ => true

/-- Oracle for `doWithRetry`: the result of each attempt (by index) and
whether the caller's context is cancelled during the wait that follows it. -/
structure NetOracle where
  result : Nat → AttemptResult
  cancelledAfter : Nat → Bool

/-- The Go triple `(*http.Response, []byte, error)` returned by
`doWithRetry`, each component nilable, plus the number of `doRequest`
invocations actually performed. -/
structure RetryOutcome where
  resp : Option Nat
  body : Option GoStr
  err : Option String
  attempts : Nat
  deriving DecidableEq, Repr

/-- The sentinel message for `ctx.Err()` after cancellation. -/
def ctxCancelledMsg : String := "context canceled"

/-- The retry loop of `doWithRetry`, from attempt index `i` with the last
transport error seen so far.  An attempt that yields a response returns it
immediately; only transport errors retry; the wait between attempts aborts
with `ctx.Err()` when the context is cancelled. -/
def doWithRetryFrom (o : NetOracle) (maxAttempts : Nat) (i : Nat)
    (lastErr : Option String) : RetryOutcome :=
  if _h : i < maxAttempts then
    match o.result i with
    | .ok status body => { resp := some status, body := some body, err := none, attempts := i + 1 }
    | .err e =>
        if i < maxAttempts - 1 then
          if o.cancelledAfter i then
            { resp := none, body := none, err := some ctxCancelledMsg, attempts := i + 1 }
          else
            doWithRetryFrom o maxAttempts (i + 1) (some e)
        else
          doWithRetryFrom o maxAttempts (i + 1) (some e)
  else
    { resp := none, body := none, err := lastErr, attempts := i }
  termination_by maxAttempts - i
  decreasing_by all_goals omega

/-- `doWithRetry` (also `Post`/`Get`): `maxAttempts` is a Go `int`, so a
zero or negative value runs the loop body zero times. -/
def doWithRetry (o : NetOracle) (maxAttempts : Int) : RetryOutcome :=
  doWithRetryFrom o maxAttempts.toNat 0 none

/-- Observable outcome of `Logger.sendLog` when run against a transport
oracle: `nilPanic` marks the nil-pointer dereference of `resp.StatusCode`
that occurs when `doWithRetry` returns a nil response with a nil error. -/
inductive SendLogOutcome where
  | ok
  | errTransport (msg : String)
  | errStatus (code : Nat)
  | nilPanic
  deriving DecidableEq, Repr

/-- `Logger.sendLog` composed with the transport: attach the hostname, POST
via `doWithRetry`, then inspect `resp.StatusCode` on the nil-error path. -/
def Logger.sendLogGo (l : Logger) (entry : LogEntry) (o : NetOracle)
    (maxAttempts : Int) : SendLogOutcome :=
  let _payload := l.sendLogPayload entry
  let r := doWithRetry o maxAttempts
  match r.err with
  | some e => .errTransport e
  | none =>
      match r.resp with
      | none => .nilPanic
      | some status =>
          if status ≠ 200 ∧ status ≠ 201 then .errStatus status else .ok

/-- `calculateBackoff` from http.go, in exact arithmetic: `randv` models the
`rand.Float64()` draw in `[0,1)`; delay doubles per attempt, jitter adds up
to 30%, and the total is clamped at `maxDelay`. -/
def calculateBackoff (retry : RetryConfig) (attempt : Nat) (randv : ℚ) : ℚ :=
  let delay : ℚ := retry.baseDelay * 2 ^ attempt
  let jitter : ℚ := randv * (3 / 10) * delay
  let total : ℚ := delay + jitter
  if retry.maxDelay < total then retry.maxDelay else total

/-- Whether an operation belongs to the `beginBatch`/`add`/`endBatch`/
`clearBatch` alphabet of the batch-size property. -/
def MOp.isQueueOp : MOp → Bool
  | .beginBatch _ _ => true
  | .add _ _ => true
  | .endBatch => true
  | .clearBatch => true
  | _ => false

/-- Number of successful `add` calls since the most recent `beginBatch` or
`clearBatch` in the sequence, starting from state `b` with running count
`cnt` (an `add` succeeds exactly when the state is in single-metric batch
mode; `endBatch` does NOT reset this count). -/
def addsSinceBeginClear (b : BoundMetrics) (cnt : Nat) : List MOp → Nat
  | [] => cnt
  | op :: rest =>
      addsSinceBeginClear (mstep b op)
        (match op with
         | .beginBatch _ _ => 0
         | .clearBatch => 0
         | .add _ _ => if b.batchMode && !b.multiBatchMode then cnt + 1 else cnt
         | _ => cnt) rest

/-- Number of successful `add` calls since the most recent `beginBatch`,
`clearBatch`, or `endBatch` (every queue-resetting operation resets the
count). -/
def addsSinceReset (b : BoundMetrics) (cnt : Nat) : List MOp → Nat
  | [] => cnt
  | op :: rest =>
      addsSinceReset (mstep b op)
        (match op with
         | .beginBatch _ _ => 0
         | .clearBatch => 0
         | .endBatch => 0
         | .add _ _ => if b.batchMode && !b.multiBatchMode then cnt + 1 else cnt
         | _ => cnt) rest

/-- The three-mode view of the batch flags: Idle, single-metric batch,
multi-metric batch. -/
inductive BatchMode where
  | idle | single | multi
  deriving DecidableEq, Repr

/-- Mode read off a client's flags. -/
def BoundMetrics.mode (b : BoundMetrics) : BatchMode :=
  if b.batchMode then (if b.multiBatchMode then .multi else .single) else .idle

/-! Lemmas about the association-list model of Go maps. -/

theorem mapLookup_mapInsert (m : TagMap) (k : String) (v : Val) (k' : String) :
    mapLookup (mapInsert m k v) k' = if k = k' then some v else mapLookup m k' := by
  induction m with
  | nil => simp [mapInsert, mapLookup]
  | cons kv rest ih =>
      obtain ⟨k0, v0⟩ := kv
      by_cases h0 : k0 = k
      · subst h0
        simp only [mapInsert, if_pos rfl, mapLookup]
        by_cases h1 : k0 = k' <;> simp [h1]
      · simp only [mapInsert, if_neg h0, mapLookup, ih]
        by_cases h1 : k0 = k' <;> by_cases h2 : k = k' <;> simp_all

theorem mapLookup_eq_none_iff (m : TagMap) (k : String) :
    mapLookup m k = none ↔ k ∉ mapKeys m := by
  induction m with
  | nil => simp [mapLookup, mapKeys]
  | cons kv rest ih =>
      obtain ⟨k0, v0⟩ := kv
      have hkeys : mapKeys ((k0, v0) :: rest) = k0 :: mapKeys rest := rfl
      rw [hkeys]
      by_cases h0 : k0 = k
      · subst h0
        simp [mapLookup]
      · have h0' : ¬ k = k0 := fun h => h0 h.symm
        simp [mapLookup, h0, ih, List.mem_cons, h0']

theorem mapLookup_mapCopyInto (d src : TagMap) (k : String)
    (hsrc : (mapKeys src).Nodup) :
    mapLookup (mapCopyInto d src) k =
      (mapLookup src k).elim (mapLookup d k) some := by
  induction src generalizing d with
  | nil => simp [mapCopyInto, mapLookup]
  | cons kv rest ih =>
      obtain ⟨k0, v0⟩ := kv
      have hsrc' : (k0 :: mapKeys rest).Nodup := hsrc
      have hk0 : k0 ∉ mapKeys rest := (List.nodup_cons.mp hsrc').1
      have hrest : (mapKeys rest).Nodup := (List.nodup_cons.mp hsrc').2
      have step : mapCopyInto d ((k0, v0) :: rest) = mapCopyInto (mapInsert d k0 v0) rest := rfl
      rw [step, ih _ hrest]
      by_cases hk : k0 = k
      · subst hk
        have hnone : mapLookup rest k0 = none := (mapLookup_eq_none_iff rest k0).mpr hk0
        simp [hnone, mapLookup, mapLookup_mapInsert]
      · simp [mapLookup, hk, mapLookup_mapInsert]

theorem mapInsert_ne_nil (m : TagMap) (k : String) (v : Val) :
    mapInsert m k v ≠ [] := by
  cases m with
  | nil => simp [mapInsert]
  | cons kv rest =>
      obtain ⟨k0, v0⟩ := kv
      by_cases h : k0 = k <;> simp [mapInsert, h]

theorem mapCopyInto_ne_nil (d src : TagMap) (hd : d ≠ []) :
    mapCopyInto d src ≠ [] := by
  induction src generalizing d with
  | nil => simpa [mapCopyInto] using hd
  | cons kv rest ih =>
      have step : mapCopyInto d (kv :: rest) = mapCopyInto (mapInsert d kv.1 kv.2) rest := by
        simp [mapCopyInto]
      rw [step]
      exact ih _ (mapInsert_ne_nil d kv.1 kv.2)

/-- The flag invariant of the metrics batch state machine: the
multi-metric flag is only ever set together with the batch flag. -/
def FlagInv (b : BoundMetrics) : Prop := b.multiBatchMode = true → b.batchMode = true

theorem flagInv_mstep (b : BoundMetrics) (op : MOp) (h : FlagInv b) :
    FlagInv (mstep b op) := by
  cases op with
  | beginBatch n u => simp [FlagInv, mstep, BoundMetrics.beginBatch]
  | beginMultiBatch => simp [FlagInv, mstep, BoundMetrics.beginMultiBatch]
  | add v t =>
      simp only [FlagInv, mstep, BoundMetrics.add]
      split <;> exact h
  | addMetric n v u t =>
      simp only [FlagInv, mstep, BoundMetrics.addMetric]
      split <;> exact h
  | endBatch => simp [FlagInv, mstep, BoundMetrics.endBatch]
  | clearBatch =>
      simp only [FlagInv, mstep, BoundMetrics.clearBatch]
      exact h
  | send n v u t r =>
      simp only [FlagInv, mstep, BoundMetrics.send]
      split
      · exact h
      · cases r with
        | err e => exact h
        | ok st =>
            simp only
            split <;> exact h
  | sendBatch r =>
      simp only [FlagInv, mstep, BoundMetrics.sendBatchGo]
      split
      · exact h
      · cases r with
        | err e => exact h
        | ok st =>
            simp only
            split
            · exact h
            · simp only [BoundMetrics.clearBatch]
              exact h

theorem flagInv_mrun (ops : List MOp) (b : BoundMetrics) (h : FlagInv b) :
    FlagInv (mrun b ops) := by
  induction ops generalizing b with
  | nil => exact h
  | cons op rest ih => exact ih _ (flagInv_mstep b op h)

theorem reachable_flagInv (s : BoundMetrics) (h : Reachable s) : FlagInv s := by
  obtain ⟨entityID, ops, rfl⟩ := h
  exact flagInv_mrun ops _ (by simp [FlagInv, forEntity])

/-- Claim C10: in every reachable BoundMetrics state, multiBatchMode implies
batchMode; consequently Send's check of the batch flag alone rejects calls
in any non-Idle mode (SingleBatch and MultiBatch alike). -/
theorem C10_multi_implies_batch (s : BoundMetrics) (h : Reachable s) :
    (s.multiBatchMode = true → s.batchMode = true) ∧
    (∀ n v u t net, s.mode ≠ .idle →
       (s.send n v u t net).2.1 =
         .error (.modeErr "cannot use Send() in batch mode")) := by
  refine ⟨reachable_flagInv s h, ?_⟩
  intro n v u t net hmode
  have hb : s.batchMode = true := by
    by_contra hb
    have : s.batchMode = false := by
      cases hx : s.batchMode
      · rfl
      · exact absurd hx hb
    exact hmode (by simp [BoundMetrics.mode, this])
  simp [BoundMetrics.send, hb]

/-- Witness for C10: the state right after `BeginMultiBatch` is reachable
and satisfies the invariant. -/
theorem C10_multi_implies_batch_witness :
    Reachable ((forEntity "e").beginMultiBatch) ∧
    (((forEntity "e").beginMultiBatch).multiBatchMode = true →
      ((forEntity "e").beginMultiBatch).batchMode = true) :=
  ⟨⟨"e", [.beginMultiBatch], rfl⟩,
   (C10_multi_implies_batch _ ⟨"e", [.beginMultiBatch], rfl⟩).1⟩

/-- Claim C2: in every reachable state, `Add` errors outside
single-metric-batch mode, `AddMetric` errors outside multi-metric-batch
mode, and `Send` errors outside Idle; every such mode error issues no
network request and leaves the mode and the queue unchanged. -/
theorem C2_mode_errors (s : BoundMetrics) (h : Reachable s) :
    (∀ v t, s.mode ≠ .single →
       (s.add v t).2 = .error (.modeErr "not in single-metric batch mode") ∧
       (s.add v t).1.mode = s.mode ∧
       (s.add v t).1.batchQueue = s.batchQueue) ∧
    (∀ n v u t, s.mode ≠ .multi →
       (s.addMetric n v u t).2 = .error (.modeErr "not in multi-metric batch mode") ∧
       (s.addMetric n v u t).1.mode = s.mode ∧
       (s.addMetric n v u t).1.batchQueue = s.batchQueue) ∧
    (∀ n v u t net, s.mode ≠ .idle →
       (s.send n v u t net).2.1 = .error (.modeErr "cannot use Send() in batch mode") ∧
       (s.send n v u t net).2.2 = [] ∧
       (s.send n v u t net).1.mode = s.mode ∧
       (s.send n v u t net).1.batchQueue = s.batchQueue) := by
  have inv := reachable_flagInv s h
  refine ⟨?_, ?_, ?_⟩
  · intro v t hmode
    cases hb : s.batchMode <;> cases hm : s.multiBatchMode <;>
      simp_all [BoundMetrics.mode, BoundMetrics.add]
  · intro n v u t hmode
    cases hb : s.batchMode <;> cases hm : s.multiBatchMode <;>
      simp_all [FlagInv, BoundMetrics.mode, BoundMetrics.addMetric]
  · intro n v u t net hmode
    cases hb : s.batchMode <;> cases hm : s.multiBatchMode <;>
      simp_all [FlagInv, BoundMetrics.mode, BoundMetrics.send]

/-- Witness for C2: a fresh client is reachable and `AddMetric` on it
errors, leaving the queue empty. -/
theorem C2_mode_errors_witness :
    Reachable (forEntity "e") ∧
    ((forEntity "e").addMetric "cpu" 45 "percent" []).2 =
      .error (.modeErr "not in multi-metric batch mode") ∧
    ((forEntity "e").addMetric "cpu" 45 "percent" []).1.batchQueue = [] := by
  refine ⟨⟨"e", [], rfl⟩, ?_, ?_⟩
  · exact ((C2_mode_errors _ ⟨"e", [], rfl⟩).2.1 "cpu" 45 "percent" [] (by decide)).1
  · exact ((C2_mode_errors _ ⟨"e", [], rfl⟩).2.1 "cpu" 45 "percent" [] (by decide)).2.2

theorem batchSize_eq_addsSinceReset (ops : List MOp) (b : BoundMetrics) (cnt : Nat)
    (hops : ∀ op ∈ ops, op.isQueueOp = true) (hcnt : b.batchSize = cnt) :
    (mrun b ops).batchSize = addsSinceReset b cnt ops := by
  induction ops generalizing b cnt with
  | nil => simpa [mrun, addsSinceReset] using hcnt
  | cons op rest ih =>
      have hop : op.isQueueOp = true := hops op (List.mem_cons_self op rest)
      have hrest : ∀ o ∈ rest, o.isQueueOp = true :=
        fun o ho => hops o (List.mem_cons_of_mem _ ho)
      cases op with
      | beginBatch n u =>
          simp only [mrun, addsSinceReset]
          exact ih _ _ hrest (by simp [mstep, BoundMetrics.beginBatch, BoundMetrics.batchSize])
      | endBatch =>
          simp only [mrun, addsSinceReset]
          exact ih _ _ hrest (by simp [mstep, BoundMetrics.endBatch, BoundMetrics.batchSize])
      | clearBatch =>
          simp only [mrun, addsSinceReset]
          exact ih _ _ hrest (by simp [mstep, BoundMetrics.clearBatch, BoundMetrics.batchSize])
      | add v t =>
          simp only [mrun, addsSinceReset]
          apply ih _ _ hrest
          cases hb : b.batchMode <;> cases hm : b.multiBatchMode <;>
            simp_all [mstep, BoundMetrics.add, BoundMetrics.batchSize]
      | beginMultiBatch => simp [MOp.isQueueOp] at hop
      | addMetric n v u t => simp [MOp.isQueueOp] at hop
      | send n v u t r => simp [MOp.isQueueOp] at hop
      | sendBatch r => simp [MOp.isQueueOp] at hop

/-- Counterexample to claim C6 as stated: after `beginBatch`, one
successful `add`, then `endBatch`, the reported batch size is 0 although
exactly one successful `add` occurred since the most recent
`beginBatch`/`clearBatch`. -/
theorem C6_counterexample :
    (mrun (forEntity "e")
       [.beginBatch "temperature" "celsius", .add 1 [], .endBatch]).batchSize = 0 ∧
    addsSinceBeginClear (forEntity "e") 0
       [.beginBatch "temperature" "celsius", .add 1 [], .endBatch] = 1 ∧
    (0 : Nat) ≠ 1 := by
  refine ⟨rfl, rfl, by decide⟩

/-- Claim C6 (amended): for every sequence of
beginBatch/add/endBatch/clearBatch operations, the reported batch size
equals the number of successful add calls since the most recent queue
reset (beginBatch, clearBatch, or endBatch), and the batch size is zero
immediately after each of beginBatch, endBatch, and clearBatch. -/
theorem C6_amended_batchSize (entityID : String) (ops : List MOp)
    (hops : ∀ op ∈ ops, op.isQueueOp = true) :
    (mrun (forEntity entityID) ops).batchSize =
      addsSinceReset (forEntity entityID) 0 ops ∧
    (∀ (b : BoundMetrics) (n u : String),
       (b.beginBatch n u).batchSize = 0 ∧
       b.endBatch.batchSize = 0 ∧
       b.clearBatch.batchSize = 0) := by
  refine ⟨batchSize_eq_addsSinceReset ops _ 0 hops rfl, ?_⟩
  intro b n u
  refine ⟨rfl, rfl, rfl⟩

/-- Witness for C6 (amended): the spec's end-to-end scenario
beginBatch("temperature","celsius"); add 23.5; add 24; add 23.8. -/
theorem C6_amended_batchSize_witness :
    (∀ op ∈ ([.beginBatch "temperature" "celsius",
              .add (47/2) [], .add 24 [], .add (119/5) []] : List MOp),
       op.isQueueOp = true) ∧
    (mrun (forEntity "e")
       [.beginBatch "temperature" "celsius",
        .add (47/2) [], .add 24 [], .add (119/5) []]).batchSize =
      addsSinceReset (forEntity "e") 0
        [.beginBatch "temperature" "celsius",
         .add (47/2) [], .add 24 [], .add (119/5) []] := by
  have hops : ∀ op ∈ ([.beginBatch "temperature" "celsius",
              .add ((47 : ℚ)/2) [], .add 24 [], .add (119/5) []] : List MOp),
      op.isQueueOp = true := by
    intro op hop
    simp only [List.mem_cons, List.not_mem_nil, or_false] at hop
    rcases hop with h | h | h | h <;> subst h <;> rfl
  exact ⟨hops, (C6_amended_batchSize "e" _ hops).1⟩

theorem mapCopyInto_ne_nil_of_or (d src : TagMap) (h : d ≠ [] ∨ src ≠ []) :
    mapCopyInto d src ≠ [] := by
  cases src with
  | nil =>
      have hd : d ≠ [] := by
        rcases h with h | h
        · exact h
        · exact absurd rfl h
      simpa [mapCopyInto] using hd
  | cons kv rest =>
      have step : mapCopyInto d (kv :: rest) = mapCopyInto (mapInsert d kv.1 kv.2) rest := rfl
      rw [step]
      exact mapCopyInto_ne_nil _ rest (mapInsert_ne_nil d kv.1 kv.2)

/-- Claim C7: `WithContext` yields a logger whose context is the union of
the parent context and the overrides, override winning on collision; the
concrete chain `{a:1}` then `{b:2}` then `{a:3}` evaluates as specified;
and the parent loggers' contexts are untouched (`WithContext` builds a
fresh map and never writes to the parent's). -/
theorem C7_withContext :
    (∀ (l : Logger) (extra : TagMap) (k : String),
       (mapKeys l.logCtx).Nodup → (mapKeys extra).Nodup →
       mapLookup ((l.withContext extra).logCtx) k =
         (mapLookup extra k).elim (mapLookup l.logCtx k) some) ∧
    ((((newLogger "h").withContext [("a", .int 1)]).withContext [("b", .int 2)]).logCtx
        = [("a", .int 1), ("b", .int 2)] ∧
     (((((newLogger "h").withContext [("a", .int 1)]).withContext [("b", .int 2)]).withContext
        [("a", .int 3)]).logCtx = [("a", .int 3), ("b", .int 2)])) ∧
    ((newLogger "h").logCtx = [] ∧
     (((newLogger "h").withContext [("a", .int 1)]).logCtx = [("a", .int 1)])) := by
  refine ⟨?_, ⟨rfl, rfl⟩, rfl, rfl⟩
  intro l extra k hctx hex
  show mapLookup (mapCopyInto (mapCopyInto [] l.logCtx) extra) k = _
  rw [mapLookup_mapCopyInto _ _ _ hex, mapLookup_mapCopyInto _ _ _ hctx]
  cases mapLookup extra k <;> cases mapLookup l.logCtx k <;> simp [mapLookup]

/-- Witness for C7: the union property applied to a fresh logger and the
override `{a:1}` at key `a`. -/
theorem C7_withContext_witness :
    (mapKeys (newLogger "h").logCtx).Nodup ∧
    (mapKeys [("a", Val.int 1)]).Nodup ∧
    mapLookup (((newLogger "h").withContext [("a", .int 1)]).logCtx) "a" =
      (mapLookup [("a", Val.int 1)] "a").elim
        (mapLookup (newLogger "h").logCtx "a") some :=
  ⟨by decide, by decide,
   C7_withContext.1 (newLogger "h") _ "a" (by decide) (by decide)⟩

/-- Claim C8: every log call's entry carries the merge of the logger's
context and the supplied tags with the tags winning; when both are empty
the merged tags are nil and the wire `tags` field is absent, and whenever
they are not both empty the field is present (never an empty object). -/
theorem C8_mergeTags :
    (∀ (l : Logger) (tags : TagMap) (level : LogLevel) (msg : GoStr) (k : String),
       (mapKeys l.logCtx).Nodup → (mapKeys tags).Nodup →
       mapLookup (((l.buildEntry level msg tags).tags).getD []) k =
         (mapLookup tags k).elim (mapLookup l.logCtx k) some) ∧
    (∀ (l : Logger) (level : LogLevel) (msg : GoStr) (tags : TagMap),
       l.logCtx = [] → tags = [] →
       (l.buildEntry level msg tags).tags = none ∧
       tagsFieldPresent (l.buildEntry level msg tags).tags = false) ∧
    (∀ (l : Logger) (level : LogLevel) (msg : GoStr) (tags : TagMap),
       ¬(l.logCtx = [] ∧ tags = []) →
       tagsFieldPresent (l.buildEntry level msg tags).tags = true) := by
  refine ⟨?_, ?_, ?_⟩
  · intro l tags level msg k hctx htags
    simp only [Logger.buildEntry, Logger.mergeTags]
    by_cases hboth : l.logCtx.isEmpty && tags.isEmpty
    · have h1 : l.logCtx = [] := by
        cases hx : l.logCtx
        · rfl
        · simp [hx] at hboth
      have h2 : tags = [] := by
        cases hx : tags
        · rfl
        · simp [hx] at hboth
      simp [hboth, h1, h2, mapLookup]
    · simp only [hboth, Bool.false_eq_true, if_false, Option.getD_some]
      rw [mapLookup_mapCopyInto _ _ _ htags, mapLookup_mapCopyInto _ _ _ hctx]
      cases mapLookup tags k <;> cases mapLookup l.logCtx k <;> simp [mapLookup]
  · intro l level msg tags h1 h2
    subst h2
    simp [Logger.buildEntry, Logger.mergeTags, h1, tagsFieldPresent]
  · intro l level msg tags hne
    have hcond : ¬(l.logCtx.isEmpty && tags.isEmpty) = true := by
      intro hb
      apply hne
      constructor
      · cases hx : l.logCtx
        · rfl
        · simp [hx] at hb
      · cases hx : tags
        · rfl
        · simp [hx] at hb
    simp only [Logger.buildEntry, Logger.mergeTags, hcond, if_false, Bool.not_eq_true]
    have hm : mapCopyInto (mapCopyInto [] l.logCtx) tags ≠ [] := by
      apply mapCopyInto_ne_nil_of_or
      by_cases ht : tags = []
      · subst ht
        left
        apply mapCopyInto_ne_nil_of_or
        right
        intro hc
        exact hne ⟨hc, rfl⟩
      · exact Or.inr ht
    simp only [tagsFieldPresent]
    cases hx : mapCopyInto (mapCopyInto [] l.logCtx) tags
    · exact absurd hx hm
    · simp

/-- Witness for C8: a fresh logger with empty context and no tags builds an
entry whose wire tags field is absent. -/
theorem C8_mergeTags_witness :
    (newLogger "h").logCtx = [] ∧
    ((newLogger "h").buildEntry .info [] []).tags = none ∧
    tagsFieldPresent ((newLogger "h").buildEntry .info [] []).tags = false :=
  ⟨rfl, (C8_mergeTags.2.1 _ .info [] [] rfl rfl).1,
        (C8_mergeTags.2.1 _ .info [] [] rfl rfl).2⟩

theorem logger_sendBatch_spec (l : Logger) (net : BatchLogsPayload → NetResult) :
    (¬(l.batchMode = true ∧ l.batchQueue ≠ []) → l.sendBatchGo net = (l, .ok (), [])) ∧
    (l.sendBatchGo net).1.batchMode = l.batchMode ∧
    (l.batchMode = true → l.batchQueue ≠ [] →
       (l.sendBatchGo net).2.2 = [{ hostname := l.hostname, logs := l.batchQueue }] ∧
       (∀ e, net { hostname := l.hostname, logs := l.batchQueue } = .err e →
          (l.sendBatchGo net).2.1 = .error (.transport e) ∧
          (l.sendBatchGo net).1.batchQueue = l.batchQueue) ∧
       (∀ st, net { hostname := l.hostname, logs := l.batchQueue } = .ok st →
          st ≠ 200 → st ≠ 201 →
          (l.sendBatchGo net).2.1 = .error (.httpStatus st) ∧
          (l.sendBatchGo net).1.batchQueue = l.batchQueue) ∧
       (∀ st, net { hostname := l.hostname, logs := l.batchQueue } = .ok st →
          (st = 200 ∨ st = 201) →
          (l.sendBatchGo net).2.1 = .ok () ∧
          (l.sendBatchGo net).1.batchQueue = [])) := by
  by_cases hcond : (!l.batchMode || l.batchQueue.isEmpty) = true
  · have hno : l.sendBatchGo net = (l, .ok (), []) := by
      simp [Logger.sendBatchGo, hcond]
    refine ⟨fun _ => hno, by simp [hno], ?_⟩
    intro hb hq
    rcases Bool.or_eq_true_iff.mp hcond with h | h
    · simp [hb] at h
    · exact absurd (List.isEmpty_iff.mp h) hq
  · have hb : l.batchMode = true := by
      cases hx : l.batchMode
      · simp [hx] at hcond
      · rfl
    have hq : l.batchQueue ≠ [] := by
      intro hx
      simp [hx, hb] at hcond
    have hcond' : (!l.batchMode || l.batchQueue.isEmpty) = false := by
      simp at hcond
      simp [hcond]
    refine ⟨fun hno => absurd ⟨hb, hq⟩ hno, ?_, ?_⟩
    · simp only [Logger.sendBatchGo, hcond', Bool.false_eq_true, if_false]
      rcases hnet : net { hostname := l.hostname, logs := l.batchQueue } with e | st
      · rfl
      · by_cases h200 : st ≠ 200 ∧ st ≠ 201 <;> simp [h200, Logger.clearBatch]
    intro _ _
    refine ⟨?_, ?_, ?_, ?_⟩
    · rcases hnet : net { hostname := l.hostname, logs := l.batchQueue } with e | st
      · simp [Logger.sendBatchGo, hcond', hnet]
      · by_cases h200 : st ≠ 200 ∧ st ≠ 201 <;>
          simp [Logger.sendBatchGo, hcond', hnet, h200]
    · intro e hnet
      simp [Logger.sendBatchGo, hcond', hnet]
    · intro st hnet h200 h201
      simp [Logger.sendBatchGo, hcond', hnet, h200, h201]
    · intro st hnet hok
      have h200 : ¬(st ≠ 200 ∧ st ≠ 201) := by
        rcases hok with h | h <;> simp [h]
      simp [Logger.sendBatchGo, hcond', hnet, h200, Logger.clearBatch]

theorem metrics_sendBatch_spec (b : BoundMetrics) (net : BatchMetricsPayload → NetResult) :
    (¬(b.batchMode = true ∧ b.batchQueue ≠ []) → b.sendBatchGo net = (b, .ok (), [])) ∧
    ((b.sendBatchGo net).1.batchMode = b.batchMode ∧
     (b.sendBatchGo net).1.multiBatchMode = b.multiBatchMode) ∧
    b.batchPayload.metrics.length = b.batchQueue.length ∧
    (b.multiBatchMode = false →
       b.batchPayload.name = some b.batchMetricName ∧
       ∀ m ∈ b.batchPayload.metrics, m.name = none) ∧
    (b.multiBatchMode = true →
       b.batchPayload.name = none ∧
       b.batchPayload.metrics.map (fun m => m.name) =
         b.batchQueue.map (fun e => some e.name)) ∧
    (b.batchMode = true → b.batchQueue ≠ [] →
       (b.sendBatchGo net).2.2 = [b.batchPayload] ∧
       (∀ e, net b.batchPayload = .err e →
          (b.sendBatchGo net).2.1 = .error (.transport e) ∧
          (b.sendBatchGo net).1.batchQueue = b.batchQueue) ∧
       (∀ st, net b.batchPayload = .ok st → st ≠ 200 → st ≠ 201 →
          (b.sendBatchGo net).2.1 = .error (.httpStatus st) ∧
          (b.sendBatchGo net).1.batchQueue = b.batchQueue) ∧
       (∀ st, net b.batchPayload = .ok st → (st = 200 ∨ st = 201) →
          (b.sendBatchGo net).2.1 = .ok () ∧
          (b.sendBatchGo net).1.batchQueue = [])) := by
  have hshape : b.batchPayload.metrics.length = b.batchQueue.length := by
    simp [BoundMetrics.batchPayload]
  have hsingle : b.multiBatchMode = false →
      b.batchPayload.name = some b.batchMetricName ∧
      ∀ m ∈ b.batchPayload.metrics, m.name = none := by
    intro hm
    refine ⟨by simp [BoundMetrics.batchPayload, hm], ?_⟩
    intro m hmem
    obtain ⟨e, _, rfl⟩ := List.mem_map.mp hmem
    simp [hm]
  have hmulti : b.multiBatchMode = true →
      b.batchPayload.name = none ∧
      b.batchPayload.metrics.map (fun m => m.name) =
        b.batchQueue.map (fun e => some e.name) := by
    intro hm
    refine ⟨by simp [BoundMetrics.batchPayload, hm], ?_⟩
    simp [BoundMetrics.batchPayload, hm, List.map_map, Function.comp]
  by_cases hcond : (!b.batchMode || b.batchQueue.isEmpty) = true
  · have hno : b.sendBatchGo net = (b, .ok (), []) := by
      simp [BoundMetrics.sendBatchGo, hcond]
    refine ⟨fun _ => hno, by simp [hno], hshape, hsingle, hmulti, ?_⟩
    intro hb hq
    rcases Bool.or_eq_true_iff.mp hcond with h | h
    · simp [hb] at h
    · exact absurd (List.isEmpty_iff.mp h) hq
  · have hb : b.batchMode = true := by
      cases hx : b.batchMode
      · simp [hx] at hcond
      · rfl
    have hq : b.batchQueue ≠ [] := by
      intro hx
      simp [hx, hb] at hcond
    have hcond' : (!b.batchMode || b.batchQueue.isEmpty) = false := by
      simp at hcond
      simp [hcond]
    refine ⟨fun hno => absurd ⟨hb, hq⟩ hno, ?_, hshape, hsingle, hmulti, ?_⟩
    · simp only [BoundMetrics.sendBatchGo, hcond', Bool.false_eq_true, if_false]
      rcases hnet : net b.batchPayload with e | st
      · simp
      · by_cases h200 : st ≠ 200 ∧ st ≠ 201 <;> simp [h200, BoundMetrics.clearBatch]
    intro _ _
    refine ⟨?_, ?_, ?_, ?_⟩
    · rcases hnet : net b.batchPayload with e | st
      · simp [BoundMetrics.sendBatchGo, hcond', hnet]
      · by_cases h200 : st ≠ 200 ∧ st ≠ 201 <;>
          simp [BoundMetrics.sendBatchGo, hcond', hnet, h200]
    · intro e hnet
      simp [BoundMetrics.sendBatchGo, hcond', hnet]
    · intro st hnet h200 h201
      simp [BoundMetrics.sendBatchGo, hcond', hnet, h200, h201]
    · intro st hnet hok
      have h200 : ¬(st ≠ 200 ∧ st ≠ 201) := by
        rcases hok with h | h <;> simp [h]
      simp [BoundMetrics.sendBatchGo, hcond', hnet, h200, BoundMetrics.clearBatch]

/-- Claim C3: for both the Logger and the BoundMetrics client, `SendBatch`
is a success no-op with no network call when not in batch mode or with an
empty queue; otherwise it POSTs the full queue as one request (hostname at
the envelope for logs; per-entry names only in multi-metric mode and the
envelope name only in single-metric mode for metrics), clears the queue
only on a 2xx response, keeps the queue intact on transport error or
non-2xx status, and preserves the mode in every case. -/
theorem C3_sendBatch_spec :
    (∀ (l : Logger) (net : BatchLogsPayload → NetResult),
       (¬(l.batchMode = true ∧ l.batchQueue ≠ []) → l.sendBatchGo net = (l, .ok (), [])) ∧
       (l.sendBatchGo net).1.batchMode = l.batchMode ∧
       (l.batchMode = true → l.batchQueue ≠ [] →
          (l.sendBatchGo net).2.2 = [{ hostname := l.hostname, logs := l.batchQueue }] ∧
          (∀ e, net { hostname := l.hostname, logs := l.batchQueue } = .err e →
             (l.sendBatchGo net).2.1 = .error (.transport e) ∧
             (l.sendBatchGo net).1.batchQueue = l.batchQueue) ∧
          (∀ st, net { hostname := l.hostname, logs := l.batchQueue } = .ok st →
             st ≠ 200 → st ≠ 201 →
             (l.sendBatchGo net).2.1 = .error (.httpStatus st) ∧
             (l.sendBatchGo net).1.batchQueue = l.batchQueue) ∧
          (∀ st, net { hostname := l.hostname, logs := l.batchQueue } = .ok st →
             (st = 200 ∨ st = 201) →
             (l.sendBatchGo net).2.1 = .ok () ∧
             (l.sendBatchGo net).1.batchQueue = []))) ∧
    (∀ (b : BoundMetrics) (net : BatchMetricsPayload → NetResult),
       (¬(b.batchMode = true ∧ b.batchQueue ≠ []) → b.sendBatchGo net = (b, .ok (), [])) ∧
       ((b.sendBatchGo net).1.batchMode = b.batchMode ∧
        (b.sendBatchGo net).1.multiBatchMode = b.multiBatchMode) ∧
       b.batchPayload.metrics.length = b.batchQueue.length ∧
       (b.multiBatchMode = false →
          b.batchPayload.name = some b.batchMetricName ∧
          ∀ m ∈ b.batchPayload.metrics, m.name = none) ∧
       (b.multiBatchMode = true →
          b.batchPayload.name = none ∧
          b.batchPayload.metrics.map (fun m => m.name) =
            b.batchQueue.map (fun e => some e.name)) ∧
       (b.batchMode = true → b.batchQueue ≠ [] →
          (b.sendBatchGo net).2.2 = [b.batchPayload] ∧
          (∀ e, net b.batchPayload = .err e →
             (b.sendBatchGo net).2.1 = .error (.transport e) ∧
             (b.sendBatchGo net).1.batchQueue = b.batchQueue) ∧
          (∀ st, net b.batchPayload = .ok st → st ≠ 200 → st ≠ 201 →
             (b.sendBatchGo net).2.1 = .error (.httpStatus st) ∧
             (b.sendBatchGo net).1.batchQueue = b.batchQueue) ∧
          (∀ st, net b.batchPayload = .ok st → (st = 200 ∨ st = 201) →
             (b.sendBatchGo net).2.1 = .ok () ∧
             (b.sendBatchGo net).1.batchQueue = []))) :=
  ⟨logger_sendBatch_spec, metrics_sendBatch_spec⟩

/-- Witness for C3: a logger in batch mode with one queued entry, against a
network returning 200, sends successfully and ends with an empty queue. -/
theorem C3_sendBatch_spec_witness :
    (({ hostname := "h", logCtx := [], batchMode := true,
        batchQueue := [{ message := [104], level := .info }] } : Logger).sendBatchGo
       (fun _ => .ok 200)).2.1 = .ok () ∧
    (({ hostname := "h", logCtx := [], batchMode := true,
        batchQueue := [{ message := [104], level := .info }] } : Logger).sendBatchGo
       (fun _ => .ok 200)).1.batchQueue = [] := by
  have h := (C3_sendBatch_spec.1
    ({ hostname := "h", logCtx := [], batchMode := true,
       batchQueue := [{ message := [104], level := .info }] } : Logger)
    (fun _ => .ok 200)).2.2 rfl (by simp)
  exact h.2.2.2 200 rfl (Or.inl rfl)

theorem doWithRetryFrom_attempts_le (o : NetOracle) (maxA : Nat) :
    ∀ (d i : Nat) (lastErr : Option String), maxA - i ≤ d → i ≤ maxA →
      (doWithRetryFrom o maxA i lastErr).attempts ≤ maxA := by
  intro d
  induction d with
  | zero =>
      intro i lastErr hd hle
      rw [doWithRetryFrom, dif_neg (by omega : ¬ i < maxA)]
      exact hle
  | succ d ih =>
      intro i lastErr hd hle
      rw [doWithRetryFrom]
      by_cases hi : i < maxA
      · rw [dif_pos hi]
        rcases hres : o.result i with ⟨st, body⟩ | e
        · exact (by omega : i + 1 ≤ maxA)
        · dsimp only
          by_cases hw : i < maxA - 1
          · rw [if_pos hw]
            by_cases hc : o.cancelledAfter i = true
            · rw [if_pos hc]
              exact (by omega : i + 1 ≤ maxA)
            · rw [if_neg hc]
              exact ih (i + 1) (some e) (by omega) (by omega)
          · rw [if_neg hw]
            exact ih (i + 1) (some e) (by omega) (by omega)
      · rw [dif_neg hi]
        exact hle

theorem doWithRetryFrom_ok (o : NetOracle) (maxA : Nat) :
    ∀ (d i : Nat) (lastErr : Option String) (j st : Nat) (body : GoStr),
      maxA - i ≤ d → i ≤ j → j < maxA →
      (∀ m, i ≤ m → m < j → (o.result m).isErr = true ∧ o.cancelledAfter m = false) →
      o.result j = .ok st body →
      doWithRetryFrom o maxA i lastErr =
        { resp := some st, body := some body, err := none, attempts := j + 1 } := by
  intro d
  induction d with
  | zero =>
      intro i lastErr j st body hd hij hj _ _
      omega
  | succ d ih =>
      intro i lastErr j st body hd hij hj hpre hres
      have hi : i < maxA := lt_of_le_of_lt hij hj
      rw [doWithRetryFrom, dif_pos hi]
      by_cases hij' : i = j
      · subst hij'
        rw [hres]
      · have hij2 : i < j := lt_of_le_of_ne hij hij'
        have hie := hpre i le_rfl hij2
        rcases hresi : o.result i with ⟨st', body'⟩ | e
        · rw [hresi] at hie
          simp [AttemptResult.isErr] at hie
        · rw [hresi] at hie
          dsimp only
          have hw : i < maxA - 1 := by omega
          rw [if_pos hw, if_neg (by simp [hie.2])]
          exact ih (i + 1) (some e) j st body (by omega) (by omega) hj
            (fun m hm1 hm2 => hpre m (by omega) hm2) hres

theorem doWithRetryFrom_exhaust (o : NetOracle) (maxA : Nat) :
    ∀ (d i : Nat) (lastErr : Option String) (e : String),
      maxA - i ≤ d → i < maxA →
      (∀ m, i ≤ m → m < maxA → (o.result m).isErr = true) →
      (∀ m, i ≤ m → m < maxA - 1 → o.cancelledAfter m = false) →
      o.result (maxA - 1) = .err e →
      doWithRetryFrom o maxA i lastErr =
        { resp := none, body := none, err := some e, attempts := maxA } := by
  intro d
  induction d with
  | zero =>
      intro i lastErr e hd hi _ _ _
      omega
  | succ d ih =>
      intro i lastErr e hd hi herr hcancel hlaste
      rw [doWithRetryFrom, dif_pos hi]
      rcases hresi : o.result i with ⟨st, body⟩ | e'
      · have hx := herr i le_rfl hi
        rw [hresi] at hx
        simp [AttemptResult.isErr] at hx
      · dsimp only
        by_cases hw : i < maxA - 1
        · rw [if_pos hw, if_neg (by simp [hcancel i le_rfl hw])]
          exact ih (i + 1) (some e') e (by omega) (by omega)
            (fun m hm1 hm2 => herr m (by omega) hm2)
            (fun m hm1 hm2 => hcancel m (by omega) hm2) hlaste
        · rw [if_neg hw]
          have hieq : i = maxA - 1 := by omega
          have he' : e' = e := by
            rw [hieq, hlaste] at hresi
            exact (AttemptResult.err.injEq e e' |>.mp hresi).symm
          rw [doWithRetryFrom, dif_neg (by omega : ¬ i + 1 < maxA)]
          have hia : i + 1 = maxA := by omega
          rw [he', hia]

theorem doWithRetry_attempts_le (o : NetOracle) (maxA : Int) :
    (doWithRetry o maxA).attempts ≤ maxA.toNat :=
  doWithRetryFrom_attempts_le o maxA.toNat maxA.toNat 0 none (by omega) (by omega)

/-- Claim C4: the transport performs at most `maxAttempts` attempts; an
attempt that yields an HTTP response (any status) is returned immediately
with no further retry; retries happen only after transport-level failures;
and when every attempt fails the returned error is the last
transport-level error (never one derived from an HTTP status). -/
theorem C4_retry_spec (o : NetOracle) (maxA : Int) :
    (doWithRetry o maxA).attempts ≤ maxA.toNat ∧
    (∀ (j st : Nat) (body : GoStr), j < maxA.toNat →
       (∀ m, m < j → (o.result m).isErr = true ∧ o.cancelledAfter m = false) →
       o.result j = .ok st body →
       doWithRetry o maxA =
         { resp := some st, body := some body, err := none, attempts := j + 1 }) ∧
    (∀ e : String, 0 < maxA.toNat →
       (∀ m, m < maxA.toNat → (o.result m).isErr = true) →
       (∀ m, m < maxA.toNat - 1 → o.cancelledAfter m = false) →
       o.result (maxA.toNat - 1) = .err e →
       doWithRetry o maxA =
         { resp := none, body := none, err := some e, attempts := maxA.toNat }) := by
  refine ⟨doWithRetry_attempts_le o maxA, ?_, ?_⟩
  · intro j st body hj hpre hres
    exact doWithRetryFrom_ok o maxA.toNat maxA.toNat 0 none j st body
      (by omega) (by omega) hj (fun m _ hm2 => hpre m hm2) hres
  · intro e hpos herr hcancel hlast
    exact doWithRetryFrom_exhaust o maxA.toNat maxA.toNat 0 none e
      (by omega) (by omega) (fun m _ hm2 => herr m hm2)
      (fun m _ hm2 => hcancel m hm2) hlast

/-- Witness for C4: with three attempts where the first fails at transport
level and the second returns HTTP 500, the 500 response is returned
immediately after two attempts with no error. -/
theorem C4_retry_spec_witness :
    doWithRetry
      { result := fun n => if n = 0 then .err "conn refused" else .ok 500 []
        cancelledAfter := fun _ => false } 3 =
      { resp := some 500, body := some [], err := none, attempts := 2 } := by
  have h := (C4_retry_spec
    { result := fun n => if n = 0 then .err "conn refused" else .ok 500 []
      cancelledAfter := fun _ => false } 3).2.1 1 500 [] (by decide)
    (by
      intro m hm
      have hm0 : m = 0 := by omega
      subst hm0
      exact ⟨rfl, rfl⟩)
    rfl
  exact h

/-- Claim C9: with a zero or negative MaxAttempts the retry loop makes no
attempt and returns nil response, nil body, and nil error together; the
nil-error path of `Logger.sendLog` then dereferences the nil response, so
maxAttempts ≥ 1 is required for "nil error implies non-nil response". -/
theorem C9_zero_attempts (o : NetOracle) (maxA : Int) (l : Logger)
    (entry : LogEntry) (h : maxA ≤ 0) :
    doWithRetry o maxA = { resp := none, body := none, err := none, attempts := 0 } ∧
    l.sendLogGo entry o maxA = .nilPanic := by
  have h0 : maxA.toNat = 0 := Int.toNat_of_nonpos h
  have hr : doWithRetry o maxA = { resp := none, body := none, err := none, attempts := 0 } := by
    rw [doWithRetry, h0, doWithRetryFrom, dif_neg (by omega : ¬ (0 : Nat) < 0)]
  refine ⟨hr, ?_⟩
  simp [Logger.sendLogGo, hr]

/-- Witness for C9: a logger with MaxAttempts 0 hits the nil dereference. -/
theorem C9_zero_attempts_witness :
    (0 : Int) ≤ 0 ∧
    (newLogger "h").sendLogGo { message := [], level := .info }
      { result := fun _ => .err "conn refused", cancelledAfter := fun _ => false } 0 =
      .nilPanic :=
  ⟨le_refl 0,
   (C9_zero_attempts
      { result := fun _ => .err "conn refused", cancelledAfter := fun _ => false }
      0 (newLogger "h") { message := [], level := .info } (le_refl 0)).2⟩

/-- Claim C5: for jitter fraction j = 0.3·randv with randv ∈ [0,1), the
backoff for attempt i equals min(maxDelay, baseDelay·2^i·(1+j)), j lies in
[0, 0.3), and the unclamped value lies in
[baseDelay·2^i, baseDelay·2^i·1.3]. -/
theorem C5_backoff (retry : RetryConfig) (i : Nat) (randv : ℚ)
    (h0 : 0 ≤ randv) (h1 : randv < 1) (hbase : 0 ≤ retry.baseDelay) :
    calculateBackoff retry i randv =
      min retry.maxDelay (retry.baseDelay * 2 ^ i * (1 + randv * (3 / 10))) ∧
    (0 ≤ randv * (3 / 10) ∧ randv * (3 / 10) < 3 / 10) ∧
    (∃ t, calculateBackoff retry i randv = min retry.maxDelay t ∧
       retry.baseDelay * 2 ^ i ≤ t ∧
       t ≤ retry.baseDelay * 2 ^ i * (13 / 10)) := by
  have hD : (0 : ℚ) ≤ retry.baseDelay * 2 ^ i :=
    mul_nonneg hbase (pow_nonneg (by norm_num) i)
  have hj0 : (0 : ℚ) ≤ randv * (3 / 10) := mul_nonneg h0 (by norm_num)
  have hj1 : randv * (3 / 10) < 3 / 10 := by nlinarith
  have heq : calculateBackoff retry i randv =
      min retry.maxDelay (retry.baseDelay * 2 ^ i * (1 + randv * (3 / 10))) := by
    simp only [calculateBackoff]
    rw [show retry.baseDelay * 2 ^ i + randv * (3 / 10) * (retry.baseDelay * 2 ^ i)
          = retry.baseDelay * 2 ^ i * (1 + randv * (3 / 10)) from by ring]
    by_cases hc : retry.maxDelay < retry.baseDelay * 2 ^ i * (1 + randv * (3 / 10))
    · rw [if_pos hc, min_eq_left (le_of_lt hc)]
    · rw [if_neg hc, min_eq_right (le_of_not_lt hc)]
  refine ⟨heq, ⟨hj0, hj1⟩, retry.baseDelay * 2 ^ i * (1 + randv * (3 / 10)), heq, ?_, ?_⟩
  · nlinarith
  · nlinarith [mul_le_mul_of_nonneg_left (le_of_lt hj1) hD]

/-- Witness for C5: baseDelay 100, maxDelay 250, attempt index 2,
randv = 1/2. -/
theorem C5_backoff_witness :
    (0 : ℚ) ≤ 1 / 2 ∧ (1 : ℚ) / 2 < 1 ∧ (0 : ℚ) ≤ 100 ∧
    calculateBackoff { maxAttempts := 3, baseDelay := 100, maxDelay := 250 } 2 (1 / 2) =
      min (250 : ℚ) (100 * 2 ^ 2 * (1 + (1 / 2) * (3 / 10))) :=
  ⟨by norm_num, by norm_num, by norm_num,
   (C5_backoff { maxAttempts := 3, baseDelay := 100, maxDelay := 250 } 2 (1 / 2)
      (by norm_num) (by norm_num) (by norm_num)).1⟩

theorem validUtf8_nil : validUtf8 [] = true := by
  rw [validUtf8]

theorem utf8Ranges_ascii (b : Nat) (hb : b < 0x80) : utf8Ranges b = some [] := by
  rw [utf8Ranges, if_pos hb]

theorem validUtf8_ascii_cons (b : Nat) (rest : GoStr) (hb : b < 0x80) :
    validUtf8 (b :: rest) = validUtf8 rest := by
  rw [validUtf8.eq_def]
  simp only [utf8Ranges_ascii b hb, consumeRanges]

theorem validUtf8_trimToValidAux :
    ∀ (n : Nat) (l : GoStr), l.length ≤ n → validUtf8 (trimToValid l) = true := by
  intro n
  induction n with
  | zero =>
      intro l hl
      have h0 : l = [] := List.length_eq_zero.mp (by omega)
      subst h0
      rw [trimToValid, if_neg (by simp)]
      exact validUtf8_nil
  | succ n ih =>
      intro l hl
      rw [trimToValid]
      by_cases hc : 0 < l.length ∧ ¬ validUtf8 l = true
      · rw [if_pos hc]
        exact ih l.dropLast (by rw [List.length_dropLast]; omega)
      · rw [if_neg hc]
        by_cases hv : validUtf8 l = true
        · exact hv
        · have hlen : ¬ 0 < l.length := fun h => hc ⟨h, hv⟩
          have h0 : l = [] := List.length_eq_zero.mp (by omega)
          subst h0
          exact validUtf8_nil

theorem validUtf8_trimToValid (l : GoStr) : validUtf8 (trimToValid l) = true :=
  validUtf8_trimToValidAux l.length l le_rfl

theorem trimToValid_prefixAux :
    ∀ (n : Nat) (l : GoStr), l.length ≤ n → ∃ t, trimToValid l ++ t = l := by
  intro n
  induction n with
  | zero =>
      intro l hl
      have h0 : l = [] := List.length_eq_zero.mp (by omega)
      subst h0
      rw [trimToValid]
      exact ⟨[], by simp⟩
  | succ n ih =>
      intro l hl
      rw [trimToValid]
      by_cases hc : 0 < l.length ∧ ¬ validUtf8 l = true
      · rw [if_pos hc]
        obtain ⟨t, ht⟩ := ih l.dropLast (by rw [List.length_dropLast]; omega)
        have hne : l ≠ [] := by
          intro h0
          rw [h0] at hc
          simp at hc
        refine ⟨t ++ [l.getLast hne], ?_⟩
        rw [← List.append_assoc, ht, List.dropLast_append_getLast hne]
      · rw [if_neg hc]
        exact ⟨[], List.append_nil l⟩

theorem trimToValid_prefix (l : GoStr) : ∃ t, trimToValid l ++ t = l :=
  trimToValid_prefixAux l.length l le_rfl

theorem trimToValid_length_le (l : GoStr) : (trimToValid l).length ≤ l.length := by
  obtain ⟨t, ht⟩ := trimToValid_prefix l
  calc (trimToValid l).length ≤ (trimToValid l).length + t.length := by omega
  _ = l.length := by rw [← List.length_append, ht]

theorem validUtf8_of_ascii (l : GoStr) (h : ∀ b ∈ l, b < 128) :
    validUtf8 l = true := by
  induction l with
  | nil => exact validUtf8_nil
  | cons b rest ih =>
      have hb : b < 128 := h b (List.mem_cons_self _ _)
      rw [validUtf8_ascii_cons b rest hb]
      exact ih (fun x hx => h x (List.mem_cons_of_mem _ hx))

theorem trimToValid_of_valid (l : GoStr) (h : validUtf8 l = true) :
    trimToValid l = l := by
  rw [trimToValid, if_neg (by simp [h])]

/-- Counterexample to claim C1 as stated: `Logger.sendLog` transmits the
entry's message bytes unmodified, so a 20000-ASCII-byte message is sent at
20000 bytes — neither within the 16000-byte cap plus marker nor
marker-suffixed. -/
theorem C1_counterexample :
    ((newLogger "svc").sendLogPayload
        { message := List.replicate 20000 120, level := .info }).message.length = 20000 ∧
    ¬ (((newLogger "svc").sendLogPayload
        { message := List.replicate 20000 120, level := .info }).message.length ≤
        maxMessageBytes + markerBytes.length) ∧
    ¬ (∃ p, ((newLogger "svc").sendLogPayload
        { message := List.replicate 20000 120, level := .info }).message =
          p ++ markerBytes) := by
  have hmsg : ((newLogger "svc").sendLogPayload
      { message := List.replicate 20000 120, level := .info }).message =
      List.replicate 20000 120 := rfl
  refine ⟨by rw [hmsg, List.length_replicate], ?_, ?_⟩
  · rw [hmsg, List.length_replicate]
    decide
  · rintro ⟨p, hp⟩
    rw [hmsg] at hp
    have h93 : (93 : Nat) ∈ List.replicate 20000 (120 : Nat) := by
      rw [hp]
      exact List.mem_append_right _ (by decide)
    have h120 := (List.mem_replicate.mp h93).2
    omega

/-- Claim C1 (amended): truncation is performed by `truncateMessage` —
applied by the HTTP middleware and the slog bridge when the message is
built, while `Logger.sendLog` transmits messages unmodified.  It leaves
messages of at most 16000 bytes unchanged; a longer message becomes a
valid-UTF-8 prefix of at most 16000 bytes (never splitting a multi-byte
character) followed by the explicit marker, and a 20000-ASCII-byte message
yields the 16015-byte marker-suffixed valid result. -/
theorem C1_amended_truncateMessage :
    (∀ msg : GoStr, maxMessageBytes < msg.length →
       ∃ p, truncateMessage msg = p ++ markerBytes ∧
            p.length ≤ maxMessageBytes ∧
            validUtf8 p = true ∧
            (∃ t, p ++ t = msg) ∧
            (truncateMessage msg).length ≤ maxMessageBytes + markerBytes.length) ∧
    (∀ msg : GoStr, msg.length ≤ maxMessageBytes → truncateMessage msg = msg) ∧
    (truncateMessage (List.replicate 20000 120) =
       List.replicate 16000 120 ++ markerBytes ∧
     validUtf8 (truncateMessage (List.replicate 20000 120)) = true ∧
     (truncateMessage (List.replicate 20000 120)).length = 16015) := by
  have hmarker : ∀ b ∈ markerBytes, b < 128 := by decide
  refine ⟨?_, ?_, ?_⟩
  · intro msg hlen
    have hdef : truncateMessage msg =
        trimToValid (msg.take maxMessageBytes) ++ markerBytes := by
      rw [truncateMessage, if_neg (by omega)]
    refine ⟨trimToValid (msg.take maxMessageBytes), hdef, ?_, validUtf8_trimToValid _, ?_, ?_⟩
    · calc (trimToValid (msg.take maxMessageBytes)).length
          ≤ (msg.take maxMessageBytes).length := trimToValid_length_le _
      _ ≤ maxMessageBytes := by
          rw [List.length_take]
          omega
    · obtain ⟨t1, ht1⟩ := trimToValid_prefix (msg.take maxMessageBytes)
      refine ⟨t1 ++ msg.drop maxMessageBytes, ?_⟩
      rw [← List.append_assoc, ht1, List.take_append_drop]
    · rw [hdef, List.length_append]
      have := trimToValid_length_le (msg.take maxMessageBytes)
      rw [List.length_take] at this
      omega
  · intro msg h
    rw [truncateMessage, if_pos h]
  · have htake : (List.replicate 20000 (120 : Nat)).take maxMessageBytes =
        List.replicate 16000 (120 : Nat) := by
      rw [List.take_replicate, show min maxMessageBytes 20000 = 16000 from by decide]
    have hvalid16 : validUtf8 (List.replicate 16000 (120 : Nat)) = true :=
      validUtf8_of_ascii _ (fun b hb => by
        have := (List.mem_replicate.mp hb).2
        omega)
    have heq : truncateMessage (List.replicate 20000 120) =
        List.replicate 16000 120 ++ markerBytes := by
      rw [truncateMessage, if_neg (by rw [List.length_replicate]; decide)]
      rw [htake, trimToValid_of_valid _ hvalid16]
    refine ⟨heq, ?_, ?_⟩
    · rw [heq]
      apply validUtf8_of_ascii
      intro b hb
      rcases List.mem_append.mp hb with h | h
      · have := (List.mem_replicate.mp h).2
        omega
      · exact hmarker b h
    · rw [heq, List.length_append, List.length_replicate]
      decide

/-- Witness for C1 (amended): the general truncation property applied to a
16001-byte ASCII message. -/
theorem C1_amended_truncateMessage_witness :
    maxMessageBytes < (List.replicate 16001 (120 : Nat)).length ∧
    ∃ p, truncateMessage (List.replicate 16001 120) = p ++ markerBytes ∧
         p.length ≤ maxMessageBytes ∧
         validUtf8 p = true ∧
         (∃ t, p ++ t = List.replicate 16001 120) ∧
         (truncateMessage (List.replicate 16001 120)).length ≤
           maxMessageBytes + markerBytes.length :=
  ⟨by rw [List.length_replicate]; decide,
   C1_amended_truncateMessage.1 (List.replicate 16001 120)
     (by rw [List.length_replicate]; decide)⟩

end LogDot
